import Mathlib

/-!
Verification development for the Inventarios point-of-sale repository.

Shallow embedding conventions, matching the Python sources
(`inventarios/repos.py`, `inventarios/services.py`, `inventarios/db.py`,
`inventarios/ui/webview_backend.py`, `inventarios/models.py`):

* Monetary amounts are modelled as `Int` numbers of cents.  Every amount the
  code stores has already passed through `Decimal(...).quantize(Decimal("0.01"),
  ROUND_HALF_UP)`, so stored values are exact multiples of 0.01 and the
  repeated re-quantizations in the code (`Decimal(str(x)).quantize(...)`) are
  the identity on them; in cents they are literal `Int`s and sums/differences
  are exact.  External inputs that the code rounds on entry (`money(cash_received)`,
  `Decimal(str(cash_counted)).quantize(...)`) are taken as already-rounded cents.
* Stock counts (`unidades`), quantities and deltas are Python `int`s,
  modelled as `Int`.
* Database tables become Lean data: the `products` and `cash_days` tables are
  finite-key maps modelled as `String → Option row`; append-only tables
  (`stock_moves`, `sales`, `cash_moves`, `cash_closes`) are lists in insertion
  order, which is also `created_at` order (autoincrement ids / monotone
  timestamps), so "ORDER BY created_at DESC" is list reversal.
* Wall-clock timestamps carry no business meaning beyond that ordering; for
  product rows the `updated_at` column is kept abstractly as a `Nat` supplied
  by the caller (`now`), and timestamp columns used only for display are
  dropped.
* An operation's returned `DB` is the database state after the backend call
  completes.  The backend wraps every call in `session_scope`
  (`inventarios/db.py`), which commits whenever the `with` block exits
  without an exception and rolls back otherwise.  All the modelled endpoints
  return their error dictionaries *normally* from inside the `with` block,
  so the session commits on those paths too: whatever was mutated on the ORM
  objects before the early return is persisted.  Paths that raise inside the
  block either mutate nothing before raising or are caught before exit; in
  both cases the state is unchanged.
-/

/-- Python `str.strip()` on the whitespace the repository's inputs contain
(space, tab, CR, LF).  Defined by structural recursion on the character list
so that concrete instances reduce inside the kernel. -/
def pyStrip (s : String) : String :=
  String.mk
    (((s.data.dropWhile Char.isWhitespace).reverse.dropWhile Char.isWhitespace).reverse)

/-- Python `str.lower()` (ASCII case folding, which is all the code's
payment-method and kind literals need). -/
def pyLower (s : String) : String :=
  String.mk (s.data.map Char.toLower)

/-- Row of the `products` table (`inventarios/models.py`, class `Product`).
The unique `key` column is the map key, so it is not repeated in the row.
`updated_at` is the abstract timestamp `updatedAt`. -/
structure ProductRow where
  producto : String
  descripcion : String
  unidades : Int
  precio_final : Int
  category : String
  updatedAt : Nat
  deriving DecidableEq, Repr, Inhabited

/-- The five business columns of a product row, i.e. everything except the
`updated_at` timestamp.  Used to state which columns an operation changes. -/
structure ProductCore where
  producto : String
  descripcion : String
  unidades : Int
  precio_final : Int
  category : String
  deriving DecidableEq, Repr

/-- Forget the timestamp of a product row. -/
def ProductRow.core (r : ProductRow) : ProductCore :=
  ⟨r.producto, r.descripcion, r.unidades, r.precio_final, r.category⟩

/-- The `products` table: key → row. -/
def Catalog : Type := String → Option ProductRow

/-- Point update of the catalog at one key (an ORM row mutation or insert). -/
def updateCat (cat : Catalog) (k : String) (r : ProductRow) : Catalog :=
  fun k2 => if k2 = k then some r else cat k2

/-- Record produced by the import adapters (`tipos_importacion.ProductoImportado`). -/
structure ProductoImportado where
  key : String
  producto : String
  descripcion : String
  unidades : Int
  precio_final : Int
  deriving DecidableEq, Repr

/-- Row of the `stock_moves` table (`inventarios/models.py`, class `StockMove`). -/
structure StockMoveRow where
  product_key : String
  kind : String
  delta : Int
  stock_after : Int
  notes : String
  deriving DecidableEq, Repr

/-- One line of a sale (`inventarios/models.py`, class `SaleLine`). -/
structure SaleLineRow where
  product_key : String
  producto : String
  descripcion : String
  qty : Int
  unit_price : Int
  line_total : Int
  deriving DecidableEq, Repr

/-- Row of the `sales` table (`inventarios/models.py`, class `Sale`), with its
lines inlined.  `day` is the calendar date of `created_at` as an ISO string,
which is what `func.date(Sale.created_at)` extracts in `totals_for_day`. -/
structure SaleRow where
  day : String
  total : Int
  payment_method : String
  cash_received : Option Int
  change_given : Option Int
  lines : List SaleLineRow
  deriving DecidableEq, Repr

/-- Row of the `cash_days` table (`inventarios/models.py`, class `CashDay`);
the ISO day string is the map key.  `manual` is the `opening_cash_manual`
flag (an `INTEGER` used as a boolean in the code). -/
structure CashDayRow where
  opening_cash : Int
  manual : Bool
  deriving DecidableEq, Repr

/-- Row of the `cash_moves` table (`inventarios/models.py`, class `CashMove`). -/
structure CashMoveRow where
  id : Int
  day : String
  kind : String
  amount : Int
  notes : String
  deriving DecidableEq, Repr

/-- Row of the `cash_closes` table (`inventarios/models.py`, class `CashClose`). -/
structure CashCloseRow where
  day : String
  opening_cash : Int
  withdrawals_total : Int
  gross_total : Int
  cash_total : Int
  card_total : Int
  nequi_total : Int
  virtual_total : Int
  expected_cash_end : Int
  carry_to_next_day : Int
  cash_counted : Option Int
  cash_diff : Option Int
  notes : String
  deriving DecidableEq, Repr

/-- The whole persistent store (one SQLite database). -/
structure DB where
  products : Catalog
  stock_moves : List StockMoveRow
  sales : List SaleRow
  cash_days : String → Option CashDayRow
  cash_moves : List CashMoveRow
  cash_closes : List CashCloseRow

/- ## Product catalog operations (`inventarios/repos.py`, class `ProductRepo`) -/

/-- One step of the de-duplicating dict build in `upsert_many`
(`dedup[p.key] = p` on a Python dict: an existing key keeps its position and
takes the new value, a new key is appended). -/
def dedupStep (acc : List ProductoImportado) (p : ProductoImportado) :
    List ProductoImportado :=
  if acc.any (fun q => q.key == p.key) then
    acc.map (fun q => if q.key = p.key then p else q)
  else acc ++ [p]

/-- The de-duplication by key in `upsert_many`: the sheet may contain repeated
keys; the last occurrence wins (Python dict insertion semantics). -/
def dedupByKey (ps : List ProductoImportado) : List ProductoImportado :=
  ps.foldl dedupStep []

/-- Effect of upserting one imported record on the stored row for its key
(the `ON CONFLICT DO UPDATE` arm of the SQLite UPSERT in `upsert_many`):
insert with empty `category` if absent, otherwise update
name/description/stock/price/timestamp and keep the existing `category`. -/
def upsertRow (now : Nat) (old : Option ProductRow) (p : ProductoImportado) :
    ProductRow :=
  match old with
  | none => ⟨p.producto, p.descripcion, p.unidades, p.precio_final, "", now⟩
  | some r =>
      { r with
        producto := p.producto
        descripcion := p.descripcion
        unidades := p.unidades
        precio_final := p.precio_final
        updatedAt := now }

/-- Apply one upserted record to the catalog. -/
def upsertOne (now : Nat) (cat : Catalog) (p : ProductoImportado) : Catalog :=
  updateCat cat p.key (upsertRow now (cat p.key) p)

/-- `ProductRepo.upsert_many` (`inventarios/repos.py`): early-return 0 on an
empty input list, otherwise de-duplicate by key (last occurrence wins),
bulk-upsert every surviving record, and return how many records were sent. -/
def upsert_many (cat : Catalog) (ps : List ProductoImportado) (now : Nat) :
    Catalog × Nat :=
  if ps.isEmpty then (cat, 0)
  else
    let l := dedupByKey ps
    (l.foldl (upsertOne now) cat, l.length)

/-- `ProductRepo.set_category` (`inventarios/repos.py`).  The Python function
is annotated `-> bool` and returns `False` for a blank or unknown key, but its
success path assigns `row.category` and falls off the end, returning `None`;
the result is therefore `Option Bool` with `none` for that implicit `None`. -/
def set_category (cat : Catalog) (product_key category : String) :
    Option Bool × Catalog :=
  let k := pyStrip product_key
  if k = "" then (some false, cat)
  else
    match cat k with
    | none => (some false, cat)
    | some row => (none, updateCat cat k { row with category := pyStrip category })

/-- Python truthiness of an `Optional[bool]`: `bool(None)` is `False`. -/
def pyTruthy : Option Bool → Bool
  | none => false
  | some b => b

/-- `WebviewBackend.setProductCategory` (`inventarios/ui/webview_backend.py`):
runs `set_category` inside `session_scope` (which commits) and returns
`{"ok": bool(ok)}`. -/
def setProductCategory (db : DB) (key category : String) : Bool × DB :=
  let r := set_category db.products key category
  (pyTruthy r.1, { db with products := r.2 })

/-- Normalisation of the `kind` argument of `adjust_stock`:
`(kind or "restock").strip().lower() or "restock"`. -/
def normKind (kind : String) : String :=
  let k := pyLower (pyStrip kind)
  if k = "" then "restock" else k

/-- `ProductRepo.adjust_stock` (`inventarios/repos.py`): apply a signed delta,
clamp the result at 0, record a `StockMove` carrying the *actually applied*
delta, and return the new stock.  `none` models the `RuntimeError` raised for
a blank or unknown key (nothing is mutated before the raise, and the backend
caller catches it, so the state is unchanged). -/
def adjust_stock (db : DB) (product_key : String) (delta : Int)
    (kind notes : String) (now : Nat) : Option Int × DB :=
  let k := pyStrip product_key
  if k = "" then (none, db)
  else
    match db.products k with
    | none => (none, db)
    | some row =>
        let raw := row.unidades + delta
        let new_stock := if raw < 0 then 0 else raw
        let applied := if raw < 0 then new_stock - row.unidades else delta
        let mv : StockMoveRow := ⟨k, normKind kind, applied, new_stock, notes⟩
        (some new_stock,
          { db with
            products := updateCat db.products k
              { row with unidades := new_stock, updatedAt := now }
            stock_moves := db.stock_moves ++ [mv] })

/-- `ProductRepo.set_stock` (`inventarios/repos.py`): absolute set clamped at
0, recording a `StockMove` of kind `adjust` with the implied delta. -/
def set_stock (db : DB) (product_key : String) (stock : Int)
    (notes : String) (now : Nat) : Option Int × DB :=
  let k := pyStrip product_key
  if k = "" then (none, db)
  else
    match db.products k with
    | none => (none, db)
    | some row =>
        let new_stock := max 0 stock
        let mv : StockMoveRow := ⟨k, "adjust", new_stock - row.unidades, new_stock, notes⟩
        (some new_stock,
          { db with
            products := updateCat db.products k
              { row with unidades := new_stock, updatedAt := now }
            stock_moves := db.stock_moves ++ [mv] })

/- ## Checkout engine (`inventarios/services.py`, class `PosService`) -/

/-- Detail entry of the `InsufficientStock` error payload in
`PosService.checkout`. -/
structure Shortfall where
  key : String
  producto : String
  available : Int
  requested : Int
  deriving DecidableEq, Repr

/-- Result of `PosService.checkout` (`CheckoutResult` in
`inventarios/services.py`); one constructor per `ok=False` error message plus
the success record.  The sale id is the caller-visible autoincrement id and is
not modelled. -/
inductive CheckoutResult where
  | emptyCart
  | invalidPayment
  | productsNotFound (missing : List String)
  | insufficientStock (details : List Shortfall)
  | insufficientCash
  | ok (total : Int) (payment_method : String)
      (cash_received change_given : Option Int)
  deriving DecidableEq, Repr

/-- The shortfall list collected by `PosService.checkout` step 4. -/
def insufficientOf (cat : Catalog) (cart : List (String × Int)) :
    List Shortfall :=
  cart.filterMap fun kq =>
    match cat kq.1 with
    | some p => if p.unidades < kq.2 then some ⟨kq.1, p.producto, p.unidades, kq.2⟩ else none
    | none => none

/-- The snapshot sale lines built by `PosService.checkout` step 5.  Unit
prices are already stored quantized, so `money(p.precio_final)` is the
identity and `line_total = unit_price * qty` exactly.  The `none` arm is
unreachable because missing keys abort beforehand. -/
def mkLines (cat : Catalog) (cart : List (String × Int)) : List SaleLineRow :=
  cart.map fun kq =>
    match cat kq.1 with
    | some p => ⟨kq.1, p.producto, p.descripcion, kq.2, p.precio_final, p.precio_final * kq.2⟩
    | none => ⟨kq.1, "", "", kq.2, 0, 0⟩

/-- The in-memory stock decrements of `PosService.checkout` step 6:
`by_key[k].unidades = int(by_key[k].unidades - qty)` for every cart entry. -/
def decrementOne (c : Catalog) (kq : String × Int) : Catalog :=
  match c kq.1 with
  | some p => updateCat c kq.1 { p with unidades := p.unidades - kq.2 }
  | none => c

def applyDecrements (cat : Catalog) (cart : List (String × Int)) : Catalog :=
  cart.foldl decrementOne cat

/-- Append the persisted `Sale` (header + lines) of `PosService.checkout`
step 8 (`SalesRepo.create_sale`). -/
def persistSale (db : DB) (lines : List SaleLineRow) (total : Int)
    (pm : String) (cash_received change_given : Option Int) (today : String) :
    CheckoutResult × DB :=
  (.ok total pm cash_received change_given,
    { db with sales := db.sales ++ [⟨today, total, pm, cash_received, change_given, lines⟩] })

/-- `PosService.checkout` (`inventarios/services.py`), composed with the
commit performed by the caller's `session_scope`: the returned `DB` is what
the database holds after the backend call.  `today` is the calendar date the
persisted sale gets from `created_at`.  Note that the in-memory stock
decrements (step 6) happen *before* the cash-received check, and the
`"Efectivo insuficiente"` branch returns the error normally, so the session
still commits the decrements on that path. -/
def checkout (db : DB) (cart0 : List (String × Int)) (payment_method : String)
    (cash_received : Option Int) (today : String) : CheckoutResult × DB :=
  let cart := cart0.filter fun kq => decide (0 < kq.2)
  if cart.isEmpty then (.emptyCart, db)
  else
    let pm := pyLower (pyStrip payment_method)
    if ¬(pm = "cash" ∨ pm = "card" ∨ pm = "nequi" ∨ pm = "virtual") then
      (.invalidPayment, db)
    else
      let missing := (cart.map Prod.fst).filter fun k => (db.products k).isNone
      if ¬missing.isEmpty then (.productsNotFound missing, db)
      else
        let insufficient := insufficientOf db.products cart
        if ¬insufficient.isEmpty then (.insufficientStock insufficient, db)
        else
          let lines := mkLines db.products cart
          let total := (lines.map (·.line_total)).sum
          let db1 := { db with products := applyDecrements db.products cart }
          match (if pm = "cash" then cash_received else none) with
          | some cr =>
              if cr < total then (.insufficientCash, db1)
              else persistSale db1 lines total pm (some cr) (some (cr - total)) today
          | none => persistSale db1 lines total pm none none today

/-- Cart accumulation in `WebviewBackend.checkout`:
`cart[k] = cart.get(k, 0) + qty` on a Python dict (existing key keeps its
position and accumulates, new key is appended). -/
def addQty : List (String × Int) → String → Int → List (String × Int)
  | [], k, q => [(k, q)]
  | kq :: rest, k, q =>
      if kq.1 = k then (kq.1, kq.2 + q) :: rest else kq :: addQty rest k q

/-- `WebviewBackend.checkout`'s cart construction from the request lines:
keep entries whose trimmed key is nonempty and whose quantity is positive,
summing quantities per key. -/
def buildCartStep (acc : List (String × Int)) (kq : String × Int) :
    List (String × Int) :=
  let k := pyStrip kq.1
  if k ≠ "" ∧ 0 < kq.2 then addQty acc k kq.2 else acc

def buildCart (lines : List (String × Int)) : List (String × Int) :=
  lines.foldl buildCartStep []

/-- `WebviewBackend.checkout` (`inventarios/ui/webview_backend.py`): build the
cart from the request lines, then run `PosService.checkout` inside
`session_scope`. -/
def checkoutBackend (db : DB) (lines : List (String × Int))
    (payment_method : String) (cash_received : Option Int) (today : String) :
    CheckoutResult × DB :=
  checkout db (buildCart lines) payment_method cash_received today

/- ## Sales aggregation (`inventarios/repos.py`, class `SalesRepo`) -/

/-- Result record of `SalesRepo.totals_for_day`. -/
structure DayTotals where
  gross_total : Int
  cash_total : Int
  card_total : Int
  nequi_total : Int
  virtual_total : Int
  sales_count : Nat
  deriving DecidableEq, Repr

/-- Payment-method key a sale contributes to in `totals_for_day`:
`str(method or "cash")` maps a falsy (empty) method to `"cash"`. -/
def methodKey (s : SaleRow) : String :=
  if s.payment_method = "" then "cash" else s.payment_method

/-- Total for one payment-method group in `totals_for_day`. -/
def methodTotal (sales : List SaleRow) (day pm : String) : Int :=
  ((sales.filter fun s => decide (s.day = day ∧ methodKey s = pm)).map (·.total)).sum

/-- `SalesRepo.totals_for_day` (`inventarios/repos.py`): all-zero record for a
blank day, otherwise per-method sums of `Sale.total` over the sales whose
calendar date equals the day, with `gross` the sum of the four method totals. -/
def totals_for_day (sales : List SaleRow) (day_iso : String) : DayTotals :=
  let day := pyStrip day_iso
  if day = "" then ⟨0, 0, 0, 0, 0, 0⟩
  else
    let cash := methodTotal sales day "cash"
    let card := methodTotal sales day "card"
    let nequi := methodTotal sales day "nequi"
    let virtual := methodTotal sales day "virtual"
    ⟨cash + card + nequi + virtual, cash, card, nequi, virtual,
      (sales.filter fun s => decide (s.day = day)).length⟩

/- ## Cash-day reconciliation (`inventarios/ui/webview_backend.py`) -/

/-- Whether a year is a Gregorian leap year (as `datetime` uses). -/
def isLeap (y : Nat) : Bool :=
  y % 4 = 0 && (y % 100 ≠ 0 || y % 400 = 0)

/-- Days in a month of a given year. -/
def daysInMonth (y m : Nat) : Nat :=
  if m = 2 then (if isLeap y then 29 else 28)
  else if m = 4 ∨ m = 6 ∨ m = 9 ∨ m = 11 then 30
  else 31

/-- Split a character list at `'-'` separators (the `"%Y-%m-%d"` format). -/
def splitDash : List Char → List Char → List (List Char)
  | [], cur => [cur.reverse]
  | c :: rest, cur =>
      if c = '-' then cur.reverse :: splitDash rest []
      else splitDash rest (c :: cur)

/-- Value of a nonempty all-digit character group (`none` otherwise). -/
def digitsVal (l : List Char) : Option Nat :=
  if l.isEmpty then none
  else
    l.foldl
      (fun acc c =>
        match acc with
        | none => none
        | some n => if c.isDigit then some (n * 10 + (c.toNat - 48)) else none)
      (some 0)

/-- Parse an ISO `YYYY-MM-DD` day string the way
`datetime.strptime(day, "%Y-%m-%d")` accepts it; `none` models the
`ValueError` on malformed input. -/
def parseDay (s : String) : Option (Nat × Nat × Nat) :=
  match splitDash s.data [] with
  | [ys, ms, ds] =>
      match digitsVal ys, digitsVal ms, digitsVal ds with
      | some y, some m, some d =>
          if 1 ≤ m ∧ m ≤ 12 ∧ 1 ≤ d ∧ d ≤ daysInMonth y m then some (y, m, d)
          else none
      | _, _, _ => none
  | _ => none

/-- Left-pad a numeral with zeros (`%04d` / `%02d` in `strftime`). -/
def padNum (width n : Nat) : String :=
  let s := toString n
  String.mk (List.replicate (width - s.length) '0') ++ s

/-- `WebviewBackend._next_day`: the ISO date one calendar day later; `none`
models the parse failure (swallowed by the caller's `except: pass`). -/
def nextDay (day : String) : Option String :=
  match parseDay day with
  | none => none
  | some (y, m, d) =>
      let (y2, m2, d2) :=
        if d < daysInMonth y m then (y, m, d + 1)
        else if m < 12 then (y, m + 1, 1)
        else (y + 1, 1, 1)
      some (padNum 4 y2 ++ "-" ++ padNum 2 m2 ++ "-" ++ padNum 2 d2)

/-- `WebviewBackend._ensure_cash_day`: lazily create the `CashDay` row with
opening 0 and `opening_cash_manual = 0`. -/
def ensure_cash_day (db : DB) (day : String) : DB :=
  match db.cash_days day with
  | some _ => db
  | none =>
      { db with cash_days := fun d => if d = day then some ⟨0, false⟩ else db.cash_days d }

/-- Accumulator step realising `ORDER BY day DESC, created_at DESC LIMIT 1`
over the closes dated strictly before `day`: keep the candidate with the
largest `day`, ties resolved in favour of the later-inserted row (the list is
in `created_at` order). -/
def prevCloseStep (day : String) (best : Option CashCloseRow) (c : CashCloseRow) :
    Option CashCloseRow :=
  if c.day < day then
    match best with
    | none => some c
    | some b => if b.day ≤ c.day then some c else some b
  else best

/-- `WebviewBackend._get_prev_close`: the most recent `CashClose` dated
strictly before `day`. -/
def prevClose (closes : List CashCloseRow) (day : String) : Option CashCloseRow :=
  closes.foldl (prevCloseStep day) none

/-- `WebviewBackend._get_opening_cash`: returns
`(opening_cash, source, needs_initial_opening)` together with the database
state after the call (the derivation self-corrects the `CashDay` row when a
prior close exists).  Sources: `"prev_close"`, `"initial"`, `"zero"`. -/
def get_opening_cash (db : DB) (day : String) :
    (Int × String × Bool) × DB :=
  let db1 := ensure_cash_day db day
  let dayRow := (db1.cash_days day).getD ⟨0, false⟩
  match prevClose db1.cash_closes day with
  | some prev =>
      let opening := prev.carry_to_next_day
      let db2 :=
        if dayRow.opening_cash ≠ opening ∨ dayRow.manual then
          { db1 with
            cash_days := fun d => if d = day then some ⟨opening, false⟩ else db1.cash_days d }
        else db1
      ((opening, "prev_close", false), db2)
  | none =>
      if dayRow.manual then ((dayRow.opening_cash, "initial", false), db1)
      else ((0, "zero", db1.cash_closes.isEmpty), db1)

/-- The day's withdrawal moves:
`CashMove.day == day AND CashMove.kind == "withdrawal"`. -/
def withdrawalMoves (moves : List CashMoveRow) (day : String) : List CashMoveRow :=
  moves.filter fun m => decide (m.day = day ∧ m.kind = "withdrawal")

/-- The snapshot record returned by `getCashPanel`. -/
structure Panel where
  day : String
  opening_cash : Int
  opening_source : String
  needs_initial_opening : Bool
  is_closed : Bool
  withdrawals_total : Int
  gross_total : Int
  cash_total : Int
  card_total : Int
  nequi_total : Int
  virtual_total : Int
  sales_count : Nat
  expected_cash_end : Int
  deriving DecidableEq, Repr

/-- `WebviewBackend.getCashPanel`: compose the opening-cash derivation, the
day's per-method sales totals, the withdrawals total over the 50 most recent
withdrawal moves (`ORDER BY created_at DESC LIMIT 50`), the expected cash end,
and whether a close exists for the day.  `none` models the
`{"ok": False, "error": "Día inválido"}` result for a blank day. -/
def getCashPanel (db : DB) (day_iso : String) : Option Panel × DB :=
  let day := pyStrip day_iso
  if day = "" then (none, db)
  else
    let db1 := ensure_cash_day db day
    let r := get_opening_cash db1 day
    let opening := r.1.1
    let source := r.1.2.1
    let needs := r.1.2.2
    let db2 := r.2
    let t := totals_for_day db2.sales day
    let moves := (withdrawalMoves db2.cash_moves day).reverse.take 50
    let w := (moves.map (·.amount)).sum
    let expected := opening + t.cash_total - w
    let lastClose := db2.cash_closes.reverse.find? fun c => c.day == day
    (some ⟨day, opening, source, needs, lastClose.isSome, w,
        t.gross_total, t.cash_total, t.card_total, t.nequi_total, t.virtual_total,
        t.sales_count, expected⟩,
      db2)

/-- Result of `closeCashDay`; one constructor per distinct returned
dictionary.  `mismatch` carries `expected_cash_end` and `cash_diff`
(counted − expected) from the `needs_force` error payload; `closed` carries
the inserted `CashClose` row and the optional perfect-match message. -/
inductive CloseResult where
  | invalidDay
  | alreadyClosed
  | mismatch (expected_cash_end cash_diff : Int)
  | closed (row : CashCloseRow) (message : Option String)
  deriving DecidableEq, Repr

/-- Insertion of the `CashClose` row plus the best-effort pre-seeding of the
next day's `CashDay` (steps 5–6 of the close).  The pre-seed ensures the next
day's row exists and then overwrites it with the carry and `manual = 0`;
a date-parse failure skips it (`except: pass`). -/
def finishClose (db : DB) (day : String) (opening w : Int) (t : DayTotals)
    (expected : Int) (cash_counted cash_diff : Option Int) (notes : String) :
    CloseResult × DB :=
  let carry := cash_counted.getD expected
  let row : CashCloseRow :=
    ⟨day, opening, w, t.gross_total, t.cash_total, t.card_total, t.nequi_total,
      t.virtual_total, expected, carry, cash_counted, cash_diff, notes⟩
  let db3 := { db with cash_closes := db.cash_closes ++ [row] }
  let db4 :=
    match nextDay day with
    | some nd =>
        { db3 with cash_days := fun d => if d = nd then some ⟨carry, false⟩ else db3.cash_days d }
    | none => db3
  let msg :=
    if cash_counted.isSome ∧ cash_diff.getD 0 = 0 then
      some "Todo cuadra. Mucha chamba por hoy, hora de dormir." else none
  (.closed row msg, db4)

/-- `WebviewBackend.closeCashDay`: reject a blank day, reject a day that
already has a `CashClose`, recompute opening / totals / withdrawals /
expected cash end, apply the counted-cash mismatch gate (two-phase confirm
with `force`), and insert the close.  The `carry_to_next_day` request
parameter is accepted but never read by the code, so it does not appear here.
`cash_counted` is the already-quantized optional counted amount. -/
def closeCashDay (db : DB) (day_iso : String) (cash_counted : Option Int)
    (notes : String) (force : Bool) : CloseResult × DB :=
  let day := pyStrip day_iso
  if day = "" then (.invalidDay, db)
  else if db.cash_closes.any (fun c => c.day == day) then (.alreadyClosed, db)
  else
    let db1 := ensure_cash_day db day
    let r := get_opening_cash db1 day
    let opening := r.1.1
    let db2 := r.2
    let t := totals_for_day db2.sales day
    let w := ((withdrawalMoves db2.cash_moves day).map (·.amount)).sum
    let expected := opening + t.cash_total - w
    match cash_counted with
    | some cc =>
        let diff := cc - expected
        if diff ≠ 0 ∧ ¬force then (.mismatch expected diff, db2)
        else finishClose db2 day opening w t expected (some cc) (some diff) notes
    | none => finishClose db2 day opening w t expected none none notes

/-- Result of `deleteCashMove`; one constructor per returned dictionary. -/
inductive DeleteResult where
  | invalidMove
  | notFound
  | ok
  deriving DecidableEq, Repr

/-- `WebviewBackend.deleteCashMove`: reject a non-positive id, look the move
up by primary key, and delete it.  The code performs no check on whether the
move's day is closed.  `eraseP` removes the fetched row (ids are unique
primary keys in any state the application creates). -/
def deleteCashMove (db : DB) (move_id : Int) : DeleteResult × DB :=
  if move_id ≤ 0 then (.invalidMove, db)
  else if db.cash_moves.any (fun m => m.id == move_id) then
    (.ok, { db with cash_moves := db.cash_moves.eraseP fun m => m.id == move_id })
  else (.notFound, db)

/- ## Basic lemmas about the embedded operations -/

theorem ensure_cash_day_products (db : DB) (day : String) :
    (ensure_cash_day db day).products = db.products := by
  unfold ensure_cash_day; cases db.cash_days day <;> rfl

theorem ensure_cash_day_sales (db : DB) (day : String) :
    (ensure_cash_day db day).sales = db.sales := by
  unfold ensure_cash_day; cases db.cash_days day <;> rfl

theorem ensure_cash_day_closes (db : DB) (day : String) :
    (ensure_cash_day db day).cash_closes = db.cash_closes := by
  unfold ensure_cash_day; cases db.cash_days day <;> rfl

theorem ensure_cash_day_moves (db : DB) (day : String) :
    (ensure_cash_day db day).cash_moves = db.cash_moves := by
  unfold ensure_cash_day; cases db.cash_days day <;> rfl

theorem ensure_cash_day_lookup (db : DB) (day : String) :
    (ensure_cash_day db day).cash_days day
      = some ((db.cash_days day).getD ⟨0, false⟩) := by
  unfold ensure_cash_day; cases h : db.cash_days day <;> simp [h]

theorem ensure_cash_day_idem (db : DB) (day : String) :
    ensure_cash_day (ensure_cash_day db day) day = ensure_cash_day db day := by
  unfold ensure_cash_day
  cases h : db.cash_days day <;> simp [h]

theorem get_opening_cash_ensure (db : DB) (day : String) :
    get_opening_cash (ensure_cash_day db day) day = get_opening_cash db day := by
  unfold get_opening_cash
  rw [ensure_cash_day_idem]

theorem ensure_cash_day_stock_moves (db : DB) (day : String) :
    (ensure_cash_day db day).stock_moves = db.stock_moves := by
  unfold ensure_cash_day; cases db.cash_days day <;> rfl

/-- `_ensure_cash_day` touches only the `cash_days` table. -/
theorem ensure_cash_day_snd (db : DB) (day : String) :
    ∃ cds, ensure_cash_day db day = { db with cash_days := cds } := by
  unfold ensure_cash_day
  cases db.cash_days day
  · exact ⟨_, rfl⟩
  · exact ⟨db.cash_days, rfl⟩

/-- The opening-cash derivation touches only the `cash_days` table. -/
theorem get_opening_cash_snd (db : DB) (day : String) :
    ∃ cds, (get_opening_cash db day).2 = { db with cash_days := cds } := by
  obtain ⟨cds1, h1⟩ := ensure_cash_day_snd db day
  unfold get_opening_cash
  rw [h1]
  dsimp only
  cases hp : prevClose db.cash_closes day
  · dsimp only
    split
    · exact ⟨cds1, rfl⟩
    · exact ⟨cds1, rfl⟩
  · dsimp only
    split
    · exact ⟨_, rfl⟩
    · exact ⟨cds1, rfl⟩

/-- The opening-cash derivation leaves all other tables unchanged. -/
theorem get_opening_cash_proj (db : DB) (day : String) :
    (get_opening_cash db day).2.sales = db.sales ∧
    (get_opening_cash db day).2.cash_closes = db.cash_closes ∧
    (get_opening_cash db day).2.cash_moves = db.cash_moves ∧
    (get_opening_cash db day).2.products = db.products ∧
    (get_opening_cash db day).2.stock_moves = db.stock_moves := by
  obtain ⟨cds, h⟩ := get_opening_cash_snd db day
  rw [h]
  exact ⟨rfl, rfl, rfl, rfl, rfl⟩

theorem get_opening_cash_sales (db : DB) (day : String) :
    (get_opening_cash db day).2.sales = db.sales :=
  (get_opening_cash_proj db day).1

theorem get_opening_cash_closes (db : DB) (day : String) :
    (get_opening_cash db day).2.cash_closes = db.cash_closes :=
  (get_opening_cash_proj db day).2.1

theorem get_opening_cash_moves (db : DB) (day : String) :
    (get_opening_cash db day).2.cash_moves = db.cash_moves :=
  (get_opening_cash_proj db day).2.2.1

/- ## C2: closing an already-closed day is rejected without any mutation -/

/-- C2.  For every day `D` that already has a `CashClose` row, a second
`closeCashDay(D, ...)` call fails with the already-closed error and leaves the
database exactly as it was: the existing `CashClose` row is not altered and no
second row for `D` is created. -/
theorem closeCashDay_already_closed (db : DB) (day : String) (cc : Option Int)
    (notes : String) (force : Bool) (htrim : pyStrip day = day) (hne : day ≠ "")
    (hclosed : ∃ c ∈ db.cash_closes, c.day = day) :
    closeCashDay db day cc notes force = (.alreadyClosed, db) := by
  obtain ⟨c, hc, hcd⟩ := hclosed
  have hany : db.cash_closes.any (fun c => c.day == day) = true :=
    List.any_eq_true.mpr ⟨c, hc, by simp [hcd]⟩
  unfold closeCashDay
  simp [htrim, hne, hany]

/-- Witness for C2 at a concrete closed day. -/
theorem closeCashDay_already_closed_witness :
    (pyStrip "2024-01-01" = "2024-01-01" ∧ "2024-01-01" ≠ "" ∧
      ∃ c ∈ ([⟨"2024-01-01", 0, 0, 0, 0, 0, 0, 0, 0, 0, none, none, ""⟩] :
          List CashCloseRow), c.day = "2024-01-01") ∧
    closeCashDay
        ⟨fun _ => none, [], [], fun _ => none, [],
          [⟨"2024-01-01", 0, 0, 0, 0, 0, 0, 0, 0, 0, none, none, ""⟩]⟩
        "2024-01-01" none "" false
      = (.alreadyClosed,
          ⟨fun _ => none, [], [], fun _ => none, [],
            [⟨"2024-01-01", 0, 0, 0, 0, 0, 0, 0, 0, 0, none, none, ""⟩]⟩) :=
  ⟨⟨by decide, by decide, by decide⟩,
    closeCashDay_already_closed _ "2024-01-01" none "" false (by decide) (by decide)
      (by decide)⟩

/- ## C3: opening cash is forced from the most recent prior close -/

/-- Reduction of the fold step when the candidate is dated before `day`. -/
theorem prevCloseStep_lt {day : String} {c : CashCloseRow}
    (hlt : c.day < day) (best : Option CashCloseRow) :
    prevCloseStep day best c
      = match best with
        | none => some c
        | some b => if b.day ≤ c.day then some c else some b := by
  unfold prevCloseStep
  rw [if_pos hlt]

/-- Reduction of the fold step when the candidate is not dated before `day`. -/
theorem prevCloseStep_not_lt {day : String} {c : CashCloseRow}
    (hlt : ¬c.day < day) (best : Option CashCloseRow) :
    prevCloseStep day best c = best := by
  unfold prevCloseStep
  rw [if_neg hlt]

theorem prevCloseAux_mem (day : String) :
    ∀ (l : List CashCloseRow) (best : Option CashCloseRow) (b : CashCloseRow),
      l.foldl (prevCloseStep day) best = some b →
      (b ∈ l ∧ b.day < day) ∨ best = some b := by
  intro l
  induction l with
  | nil => intro best b h; exact Or.inr h
  | cons c t ih =>
      intro best b h
      rcases ih (prevCloseStep day best c) b h with h1 | h2
      · exact Or.inl ⟨List.mem_cons_of_mem _ h1.1, h1.2⟩
      · by_cases hlt : c.day < day
        · rw [prevCloseStep_lt hlt] at h2
          cases best with
          | none =>
              dsimp only at h2
              cases h2
              exact Or.inl ⟨List.mem_cons_self _ _, hlt⟩
          | some b0 =>
              dsimp only at h2
              by_cases hle : b0.day ≤ c.day
              · rw [if_pos hle] at h2
                cases h2
                exact Or.inl ⟨List.mem_cons_self _ _, hlt⟩
              · rw [if_neg hle] at h2
                exact Or.inr h2
        · rw [prevCloseStep_not_lt hlt] at h2
          exact Or.inr h2

theorem prevCloseAux_max (day : String) :
    ∀ (l : List CashCloseRow) (best : Option CashCloseRow) (b : CashCloseRow),
      l.foldl (prevCloseStep day) best = some b →
      (∀ c ∈ l, c.day < day → c.day ≤ b.day) ∧
      (∀ b0, best = some b0 → b0.day ≤ b.day) := by
  intro l
  induction l with
  | nil =>
      intro best b h
      refine ⟨fun c hc => absurd hc (List.not_mem_nil c), fun b0 h0 => ?_⟩
      rw [h0] at h; cases h; exact le_refl _
  | cons c t ih =>
      intro best b h
      obtain ⟨H1, H2⟩ := ih (prevCloseStep day best c) b h
      constructor
      · intro x hx hlt
        rcases List.mem_cons.mp hx with rfl | hxt
        · -- the head: the accumulator after the step dominates it
          have hstep : ∃ bb, prevCloseStep day best x = some bb ∧ x.day ≤ bb.day := by
            rw [prevCloseStep_lt hlt]
            cases best with
            | none => exact ⟨x, rfl, le_refl _⟩
            | some b0 =>
                dsimp only
                by_cases hle : b0.day ≤ x.day
                · rw [if_pos hle]; exact ⟨x, rfl, le_refl _⟩
                · rw [if_neg hle]; exact ⟨b0, rfl, le_of_not_le hle⟩
          obtain ⟨bb, hbb, hxbb⟩ := hstep
          exact le_trans hxbb (H2 bb hbb)
        · exact H1 x hxt hlt
      · intro b0 h0
        -- the step never decreases the accumulator's day
        have hstep : ∃ bb, prevCloseStep day best c = some bb ∧ b0.day ≤ bb.day := by
          by_cases hlt : c.day < day
          · rw [prevCloseStep_lt hlt, h0]
            dsimp only
            by_cases hle : b0.day ≤ c.day
            · rw [if_pos hle]; exact ⟨c, rfl, hle⟩
            · rw [if_neg hle]; exact ⟨b0, rfl, le_refl _⟩
          · rw [prevCloseStep_not_lt hlt]
            exact ⟨b0, h0, le_refl _⟩
        obtain ⟨bb, hbb, hle⟩ := hstep
        exact le_trans hle (H2 bb hbb)

theorem prevCloseAux_isSome (day : String) :
    ∀ (l : List CashCloseRow) (best : Option CashCloseRow),
      ((∃ c ∈ l, c.day < day) ∨ best.isSome) →
      (l.foldl (prevCloseStep day) best).isSome := by
  intro l
  induction l with
  | nil =>
      intro best h
      rcases h with ⟨c, hc, _⟩ | h
      · exact absurd hc (List.not_mem_nil c)
      · exact h
  | cons c t ih =>
      intro best h
      apply ih
      have hsome : ∀ (hlt : c.day < day), (prevCloseStep day best c).isSome := by
        intro hlt
        rw [prevCloseStep_lt hlt]
        cases best with
        | none => rfl
        | some b0 =>
            dsimp only
            by_cases hle : b0.day ≤ c.day
            · rw [if_pos hle]; rfl
            · rw [if_neg hle]; rfl
      rcases h with ⟨x, hx, hlt⟩ | hs
      · rcases List.mem_cons.mp hx with rfl | hxt
        · exact Or.inr (hsome hlt)
        · exact Or.inl ⟨x, hxt, hlt⟩
      · by_cases hlt : c.day < day
        · exact Or.inr (hsome hlt)
        · rw [prevCloseStep_not_lt hlt]
          exact Or.inr hs

/-- The helper `_get_prev_close` returns the maximal-day close dated strictly
before `day` whenever one exists. -/
theorem prevClose_spec (closes : List CashCloseRow) (day : String)
    (h : ∃ c ∈ closes, c.day < day) :
    ∃ b, prevClose closes day = some b ∧ b ∈ closes ∧ b.day < day ∧
      ∀ c ∈ closes, c.day < day → c.day ≤ b.day := by
  have hs := prevCloseAux_isSome day closes none (Or.inl h)
  obtain ⟨b, hb⟩ := Option.isSome_iff_exists.mp hs
  rcases prevCloseAux_mem day closes none b hb with ⟨hmem, hlt⟩ | h0
  · exact ⟨b, hb, hmem, hlt, (prevCloseAux_max day closes none b hb).1⟩
  · cases h0

/-- C3.  Whenever some `CashClose` is dated strictly before day `D`, the
opening-cash derivation returns the `carry_to_next_day` of the most recent
close before `D` (maximal day, ties to the latest row), tags it
`"prev_close"`, does not request an initial opening, and rewrites `D`'s
`CashDay` row to the derived value with `opening_cash_manual = false`,
overwriting any stale manual override. -/
theorem get_opening_cash_prev_close (db : DB) (D : String)
    (h : ∃ c ∈ db.cash_closes, c.day < D) :
    ∃ b, prevClose db.cash_closes D = some b ∧ b ∈ db.cash_closes ∧ b.day < D ∧
      (∀ c ∈ db.cash_closes, c.day < D → c.day ≤ b.day) ∧
      (get_opening_cash db D).1 = (b.carry_to_next_day, "prev_close", false) ∧
      (get_opening_cash db D).2.cash_days D
        = some ⟨b.carry_to_next_day, false⟩ := by
  obtain ⟨b, hb, hmem, hlt, hmax⟩ := prevClose_spec db.cash_closes D h
  have hsc : prevClose (ensure_cash_day db D).cash_closes D = some b := by
    rw [ensure_cash_day_closes]; exact hb
  refine ⟨b, hb, hmem, hlt, hmax, ?_, ?_⟩
  · simp only [get_opening_cash, hsc]
  · simp only [get_opening_cash, hsc, ensure_cash_day_lookup, Option.getD_some]
    split
    · simp
    · next hcond =>
        push_neg at hcond
        obtain ⟨ho, hm⟩ := hcond
        simp only [Bool.not_eq_true] at hm
        rw [ensure_cash_day_lookup, Option.some_inj]
        cases hdr : (db.cash_days D).getD ⟨0, false⟩ with
        | mk oc mn =>
            rw [hdr] at ho hm
            simp only at ho hm
            rw [ho, hm]

/-- Concrete store for the C3 witness: one close on 2024-01-01 carrying
500.00, and a stale manual opening of 77.77 recorded for 2024-01-02. -/
def dbC3 : DB :=
  ⟨fun _ => none, [], [],
    fun d => if d = "2024-01-02" then some ⟨7777, true⟩ else none, [],
    [⟨"2024-01-01", 0, 0, 0, 0, 0, 0, 0, 50000, 50000, none, none, ""⟩]⟩

/-- Witness for C3: the day after the close derives its opening from the
carry, overriding the stale manual value. -/
theorem get_opening_cash_prev_close_witness :
    (∃ c ∈ dbC3.cash_closes, c.day < "2024-01-02") ∧
    (∃ b, prevClose dbC3.cash_closes "2024-01-02" = some b ∧
      b ∈ dbC3.cash_closes ∧ b.day < "2024-01-02" ∧
      (∀ c ∈ dbC3.cash_closes, c.day < "2024-01-02" → c.day ≤ b.day) ∧
      (get_opening_cash dbC3 "2024-01-02").1 = (b.carry_to_next_day, "prev_close", false) ∧
      (get_opening_cash dbC3 "2024-01-02").2.cash_days "2024-01-02"
        = some ⟨b.carry_to_next_day, false⟩) :=
  have hlt : ("2024-01-01" : String) < "2024-01-02" := by
    rw [String.lt_iff_toList_lt]; decide
  have hex : ∃ c ∈ dbC3.cash_closes, c.day < "2024-01-02" :=
    ⟨⟨"2024-01-01", 0, 0, 0, 0, 0, 0, 0, 50000, 50000, none, none, ""⟩,
      by simp [dbC3], hlt⟩
  ⟨hex, get_opening_cash_prev_close dbC3 "2024-01-02" hex⟩

/- ## C4: reconciliation arithmetic of closeCashDay -/

/-- The derived opening cash of a day (first component of
`_get_opening_cash`). -/
def openingOf (db : DB) (day : String) : Int :=
  (get_opening_cash db day).1.1

/-- The day's withdrawals total as the close computes it (all withdrawal
moves of the day, no limit). -/
def withdrawalsTotalOf (db : DB) (day : String) : Int :=
  ((withdrawalMoves db.cash_moves day).map (·.amount)).sum

/-- The expected cash end: opening + cash-method sales − withdrawals (all
summands are integer cents, so the quantizations in the code are exact). -/
def closeExpected (db : DB) (day : String) : Int :=
  openingOf db day + (totals_for_day db.sales day).cash_total
    - withdrawalsTotalOf db day

/-- Evaluation of `closeCashDay` on a not-yet-closed day, with the internal
recomputation folded into `closeExpected`. -/
theorem closeCashDay_eval_open (db : DB) (D : String) (cc : Option Int)
    (notes : String) (force : Bool) (htrim : pyStrip D = D) (hne : D ≠ "")
    (hopen : ∀ c ∈ db.cash_closes, c.day ≠ D) :
    closeCashDay db D cc notes force =
      match cc with
      | some c =>
          if c - closeExpected db D ≠ 0 ∧ ¬force then
            (.mismatch (closeExpected db D) (c - closeExpected db D),
              (get_opening_cash db D).2)
          else
            finishClose (get_opening_cash db D).2 D (openingOf db D)
              (withdrawalsTotalOf db D) (totals_for_day db.sales D)
              (closeExpected db D) (some c) (some (c - closeExpected db D)) notes
      | none =>
          finishClose (get_opening_cash db D).2 D (openingOf db D)
            (withdrawalsTotalOf db D) (totals_for_day db.sales D)
            (closeExpected db D) none none notes := by
  have hany : db.cash_closes.any (fun c => c.day == D) = false := by
    rw [List.any_eq_false]
    intro c hc
    simpa using hopen c hc
  simp only [closeCashDay, htrim, if_neg hne, hany, Bool.false_eq_true, if_false]
  rw [get_opening_cash_ensure]
  simp only [get_opening_cash_sales, get_opening_cash_moves, closeExpected,
    openingOf, withdrawalsTotalOf]

/-- C4.  For an open day `D`, the expected cash end is
`opening + cash sales − withdrawals`; closing with `cash_counted` equal to it
succeeds with `cash_diff = 0` and `force = false`; closing with a different
`cash_counted` and `force = false` fails with the mismatch error carrying the
expected value and the diff (counted − expected) and writes no `CashClose`;
re-invoking with `force = true` succeeds and records
`carry_to_next_day = cash_counted`. -/
theorem closeCashDay_reconciliation (db : DB) (D : String) (notes : String)
    (htrim : pyStrip D = D) (hne : D ≠ "")
    (hopen : ∀ c ∈ db.cash_closes, c.day ≠ D) :
    (∃ row msg db2,
        closeCashDay db D (some (closeExpected db D)) notes false
            = (.closed row msg, db2) ∧
        row.cash_diff = some 0 ∧
        row.cash_counted = some (closeExpected db D) ∧
        row.expected_cash_end = closeExpected db D ∧
        row.carry_to_next_day = closeExpected db D) ∧
    (∀ cc, cc ≠ closeExpected db D →
        ∃ db2,
          closeCashDay db D (some cc) notes false
              = (.mismatch (closeExpected db D) (cc - closeExpected db D), db2) ∧
          db2.cash_closes = db.cash_closes) ∧
    (∀ cc, ∃ row msg db2,
        closeCashDay db D (some cc) notes true = (.closed row msg, db2) ∧
        row.carry_to_next_day = cc ∧
        row.cash_counted = some cc ∧
        row.cash_diff = some (cc - closeExpected db D) ∧
        db2.cash_closes = db.cash_closes ++ [row]) := by
  refine ⟨?_, ?_, ?_⟩
  · rw [closeCashDay_eval_open db D _ notes false htrim hne hopen]
    dsimp only
    rw [if_neg (by simp)]
    simp only [finishClose]
    refine ⟨_, _, _, rfl, by simp, rfl, rfl, by simp⟩
  · intro cc hcc
    rw [closeCashDay_eval_open db D _ notes false htrim hne hopen]
    dsimp only
    rw [if_pos ⟨sub_ne_zero.mpr hcc, by simp⟩]
    exact ⟨_, rfl, get_opening_cash_closes db D⟩
  · intro cc
    rw [closeCashDay_eval_open db D _ notes true htrim hne hopen]
    dsimp only
    rw [if_neg (by simp)]
    simp only [finishClose]
    refine ⟨_, _, _, rfl, by simp, rfl, rfl, ?_⟩
    cases nextDay D <;> simp [get_opening_cash_closes db D]

/-- Concrete store for the C4 witness: opening 100.00 entered manually (no
prior close), one cash sale of 250.00 and one withdrawal of 50.00 on the
day. -/
def dbC4 : DB :=
  ⟨fun _ => none, [],
    [⟨"2024-03-01", 25000, "cash", none, none, []⟩],
    fun d => if d = "2024-03-01" then some ⟨10000, true⟩ else none,
    [⟨1, "2024-03-01", "withdrawal", 5000, ""⟩], []⟩

/-- Witness for C4 at the spec's own numbers (expected end 300.00). -/
theorem closeCashDay_reconciliation_witness :
    (pyStrip "2024-03-01" = "2024-03-01" ∧ "2024-03-01" ≠ "" ∧
      (∀ c ∈ dbC4.cash_closes, c.day ≠ "2024-03-01") ∧
      closeExpected dbC4 "2024-03-01" = 30000) ∧
    ((∃ row msg db2,
        closeCashDay dbC4 "2024-03-01" (some (closeExpected dbC4 "2024-03-01")) "" false
            = (.closed row msg, db2) ∧
        row.cash_diff = some 0 ∧
        row.cash_counted = some (closeExpected dbC4 "2024-03-01") ∧
        row.expected_cash_end = closeExpected dbC4 "2024-03-01" ∧
        row.carry_to_next_day = closeExpected dbC4 "2024-03-01") ∧
    (∀ cc, cc ≠ closeExpected dbC4 "2024-03-01" →
        ∃ db2,
          closeCashDay dbC4 "2024-03-01" (some cc) "" false
              = (.mismatch (closeExpected dbC4 "2024-03-01")
                  (cc - closeExpected dbC4 "2024-03-01"), db2) ∧
          db2.cash_closes = dbC4.cash_closes) ∧
    (∀ cc, ∃ row msg db2,
        closeCashDay dbC4 "2024-03-01" (some cc) "" true = (.closed row msg, db2) ∧
        row.carry_to_next_day = cc ∧
        row.cash_counted = some cc ∧
        row.cash_diff = some (cc - closeExpected dbC4 "2024-03-01") ∧
        db2.cash_closes = dbC4.cash_closes ++ [row])) :=
  ⟨⟨by decide, by decide, by decide, by decide⟩,
    closeCashDay_reconciliation dbC4 "2024-03-01" "" (by decide) (by decide) (by decide)⟩

/- ## C7: the panel caps withdrawals at 50 moves, the close does not -/

/-- The `withdrawals_total` recorded by a `closeCashDay` result, when the
close succeeded. -/
def closeWithdrawals : CloseResult → Option Int
  | .closed row _ => some row.withdrawals_total
  | _ => none

/-- C7 (amended).  For an open day with at most 50 withdrawal moves,
`closeCashDay` records exactly the `withdrawals_total` and
`expected_cash_end` that `getCashPanel` reports over the same data.  (With
more than 50 moves the panel sums only the 50 most recent, while the close
sums all of them — see the counterexample.) -/
theorem close_matches_panel_of_moves_le_50 (db : DB) (D : String)
    (htrim : pyStrip D = D) (hne : D ≠ "")
    (hopen : ∀ c ∈ db.cash_closes, c.day ≠ D)
    (hm : (withdrawalMoves db.cash_moves D).length ≤ 50) :
    ∃ row msg db2,
      closeCashDay db D none "" false = (.closed row msg, db2) ∧
      (getCashPanel db D).1.map (·.withdrawals_total) = some row.withdrawals_total ∧
      (getCashPanel db D).1.map (·.expected_cash_end) = some row.expected_cash_end := by
  rw [closeCashDay_eval_open db D none "" false htrim hne hopen]
  dsimp only
  simp only [finishClose]
  refine ⟨_, _, _, rfl, ?_, ?_⟩ <;>
  · simp only [getCashPanel, htrim, if_neg hne, get_opening_cash_ensure,
      get_opening_cash_sales, get_opening_cash_moves, Option.map_some]
    have htake : (withdrawalMoves db.cash_moves D).reverse.take 50
        = (withdrawalMoves db.cash_moves D).reverse :=
      List.take_of_length_le (by rw [List.length_reverse]; exact hm)
    simp only [htake, List.map_reverse, List.sum_reverse]
    simp [withdrawalsTotalOf, closeExpected, openingOf]

/-- Witness for the amended C7 at a concrete one-withdrawal day. -/
theorem close_matches_panel_witness :
    (pyStrip "2024-03-01" = "2024-03-01" ∧ "2024-03-01" ≠ "" ∧
      (∀ c ∈ dbC4.cash_closes, c.day ≠ "2024-03-01") ∧
      (withdrawalMoves dbC4.cash_moves "2024-03-01").length ≤ 50) ∧
    (∃ row msg db2,
      closeCashDay dbC4 "2024-03-01" none "" false = (.closed row msg, db2) ∧
      (getCashPanel dbC4 "2024-03-01").1.map (·.withdrawals_total)
        = some row.withdrawals_total ∧
      (getCashPanel dbC4 "2024-03-01").1.map (·.expected_cash_end)
        = some row.expected_cash_end) :=
  ⟨⟨by decide, by decide, by decide, by decide⟩,
    close_matches_panel_of_moves_le_50 dbC4 "2024-03-01" (by decide) (by decide)
      (by decide) (by decide)⟩

/-- Concrete store refuting C7 as stated: 51 withdrawal moves of 1.00 each
on the same open day. -/
def dbC7 : DB :=
  ⟨fun _ => none, [], [], fun _ => none,
    (List.range 51).map fun i => ⟨(i : Int) + 1, "2024-03-01", "withdrawal", 100, ""⟩,
    []⟩

/-- Counterexample to C7 as stated: with 51 withdrawal moves the panel
reports 50.00 (its query is capped at the 50 most recent moves) while the
close records 51.00, so the two disagree. -/
theorem panel_close_withdrawals_differ_cex :
    (getCashPanel dbC7 "2024-03-01").1.map (·.withdrawals_total) = some 5000 ∧
    closeWithdrawals (closeCashDay dbC7 "2024-03-01" none "" false).1 = some 5100 ∧
    closeWithdrawals (closeCashDay dbC7 "2024-03-01" none "" false).1
      ≠ (getCashPanel dbC7 "2024-03-01").1.map (·.withdrawals_total) :=
  ⟨by decide, by decide, by decide⟩

/- ## C8: deleteCashMove never checks whether the day is closed -/

theorem eraseP_id_not_mem (mid : Int) :
    ∀ (l : List CashMoveRow), (l.map (·.id)).Nodup →
      ∀ m ∈ l.eraseP (fun m => m.id == mid), m.id ≠ mid := by
  intro l
  induction l with
  | nil => intro _ m hm; exact absurd hm (List.not_mem_nil m)
  | cons x t ih =>
      intro hnd m hm
      rw [List.map_cons, List.nodup_cons] at hnd
      by_cases hx : x.id = mid
      · rw [List.eraseP_cons, show (x.id == mid) = true by simp [hx]] at hm
        simp only [cond_true] at hm
        intro hmid
        exact hnd.1 (by rw [hx, ← hmid]; exact List.mem_map_of_mem _ hm)
      · rw [List.eraseP_cons, show (x.id == mid) = false by simp [hx]] at hm
        simp only [cond_false] at hm
        rcases List.mem_cons.mp hm with rfl | hmt
        · exact hx
        · exact ih hnd.2 m hmt

/-- C8 (amended).  `deleteCashMove` deletes any existing move with a positive
id, whether or not a `CashClose` exists for the move's day: the only rejected
cases are a non-positive id and a missing move.  (The code performs no
closed-day check — see the counterexample for deletion on a closed day.) -/
theorem deleteCashMove_ignores_close (db : DB) (mid : Int)
    (hpos : 0 < mid) (hmem : ∃ m ∈ db.cash_moves, m.id = mid)
    (hnd : (db.cash_moves.map (·.id)).Nodup) :
    deleteCashMove db mid
      = (.ok, { db with cash_moves := db.cash_moves.eraseP fun m => m.id == mid }) ∧
    (∀ m ∈ (deleteCashMove db mid).2.cash_moves, m.id ≠ mid) ∧
    (deleteCashMove db mid).2.cash_closes = db.cash_closes := by
  have hany : db.cash_moves.any (fun m => m.id == mid) = true :=
    List.any_eq_true.mpr
      (by obtain ⟨m, hm, hid⟩ := hmem; exact ⟨m, hm, by simp [hid]⟩)
  have hdel : deleteCashMove db mid
      = (.ok, { db with cash_moves := db.cash_moves.eraseP fun m => m.id == mid }) := by
    unfold deleteCashMove
    rw [if_neg (not_le.mpr hpos), if_pos hany]
  refine ⟨hdel, ?_, by rw [hdel]⟩
  rw [hdel]
  exact eraseP_id_not_mem mid db.cash_moves hnd

/-- Concrete store for C8: day 2024-01-01 is closed, yet its withdrawal move
(id 7) is still present. -/
def dbC8 : DB :=
  ⟨fun _ => none, [], [], fun _ => none,
    [⟨7, "2024-01-01", "withdrawal", 1000, ""⟩],
    [⟨"2024-01-01", 0, 0, 0, 0, 0, 0, 0, 0, 0, none, none, ""⟩]⟩

/-- Counterexample to C8 as stated: the move's day already has a `CashClose`,
yet `deleteCashMove` succeeds and removes the row instead of rejecting. -/
theorem deleteCashMove_closed_day_cex :
    (∃ c ∈ dbC8.cash_closes, c.day = "2024-01-01") ∧
    (∃ m ∈ dbC8.cash_moves, m.day = "2024-01-01" ∧ m.id = 7) ∧
    (deleteCashMove dbC8 7).1 = .ok ∧
    (deleteCashMove dbC8 7).2.cash_moves = [] :=
  ⟨by decide, by decide, by decide, by decide⟩

/-- Witness for the amended C8 on the closed-day store. -/
theorem deleteCashMove_ignores_close_witness :
    ((0 : Int) < 7 ∧ (∃ m ∈ dbC8.cash_moves, m.id = 7) ∧
      (dbC8.cash_moves.map (·.id)).Nodup) ∧
    (deleteCashMove dbC8 7
        = (.ok, { dbC8 with cash_moves := dbC8.cash_moves.eraseP fun m => m.id == 7 }) ∧
      (∀ m ∈ (deleteCashMove dbC8 7).2.cash_moves, m.id ≠ 7) ∧
      (deleteCashMove dbC8 7).2.cash_closes = dbC8.cash_closes) :=
  ⟨⟨by decide, by decide, by decide⟩,
    deleteCashMove_ignores_close dbC8 7 (by decide) (by decide) (by decide)⟩

/- ## C1: insufficient cash aborts the sale but persists the stock decrement -/

/-- Concrete store for C1 and C9: one product `"p"` with stock 5, price 10.00
and category `"old"`. -/
def dbC1 : DB :=
  ⟨fun k => if k = "p" then some ⟨"P", "", 5, 1000, "old", 0⟩ else none,
    [], [], fun _ => none, [], []⟩

/-- C1 exhibit.  Checking out one unit of `"p"` (total 10.00) paying cash
with only 5.00 received returns the `InsufficientCash` error and records no
sale — but the code decrements the stock *before* the cash check and returns
the error without raising, so `session_scope` commits and the persisted stock
drops from 5 to 4.  The claim's "stock ... unchanged after the operation"
is false on the code. -/
theorem checkout_insufficient_cash_persists_decrement :
    (checkoutBackend dbC1 [("p", 1)] "cash" (some 500) "2024-01-02").1
        = .insufficientCash ∧
    (dbC1.products "p").map (·.unidades) = some 5 ∧
    ((checkoutBackend dbC1 [("p", 1)] "cash" (some 500) "2024-01-02").2.products "p").map
        (·.unidades) = some 4 ∧
    (checkoutBackend dbC1 [("p", 1)] "cash" (some 500) "2024-01-02").2.sales = [] :=
  ⟨by decide, by decide, by decide, by decide⟩

/- ## C9: set_category mutates but returns a falsy value -/

/-- C9 exhibit.  `ProductRepo.set_category` is annotated `-> bool`, but its
success path assigns the category and falls off the end, returning `None`;
`setProductCategory` then reports `{"ok": bool(None)} = {"ok": False}` even
though the category was updated (and committed).  The claim's "true when a
product with the key exists and its category has been set" is false on the
code. -/
theorem setProductCategory_returns_false_on_success :
    (setProductCategory dbC1 "p" "food").1 = false ∧
    ((setProductCategory dbC1 "p" "food").2.products "p").map (·.category)
        = some "food" ∧
    (set_category dbC1.products "p" "food").1 = none :=
  ⟨by decide, by decide, by decide⟩

/- ## C5: stock never goes negative -/

/-- The stock invariant on a catalog: every stored product has
`unidades >= 0`. -/
def CatOk (cat : Catalog) : Prop :=
  ∀ k r, cat k = some r → 0 ≤ r.unidades

/-- The stock invariant on the whole store. -/
def StockOk (db : DB) : Prop :=
  CatOk db.products

theorem catOk_update {cat : Catalog} {k : String} {r : ProductRow}
    (h : CatOk cat) (hr : 0 ≤ r.unidades) : CatOk (updateCat cat k r) := by
  intro k2 r2 h2
  unfold updateCat at h2
  split at h2
  · cases h2; exact hr
  · exact h _ _ h2

/-- `adjust_stock` preserves the invariant: the result is clamped at 0. -/
theorem adjust_stock_stockOk {db : DB} (h : StockOk db)
    (key : String) (delta : Int) (kind notes : String) (now : Nat) :
    StockOk (adjust_stock db key delta kind notes now).2 := by
  simp only [adjust_stock]
  split
  · exact h
  · split
    · exact h
    · next row _ =>
        apply catOk_update h
        dsimp only
        split
        · exact le_refl 0
        · next hraw => exact le_of_not_lt hraw

/-- `set_stock` preserves the invariant: the stored value is `max 0 stock`. -/
theorem set_stock_stockOk {db : DB} (h : StockOk db)
    (key : String) (stock : Int) (notes : String) (now : Nat) :
    StockOk (set_stock db key stock notes now).2 := by
  simp only [set_stock]
  split
  · exact h
  · split
    · exact h
    · exact catOk_update h (le_max_left 0 stock)

theorem addQty_keys_mem (k : String) (q : Int) :
    ∀ (acc : List (String × Int)), k ∈ acc.map Prod.fst →
      (addQty acc k q).map Prod.fst = acc.map Prod.fst := by
  intro acc
  induction acc with
  | nil => intro hmem; exact absurd hmem (List.not_mem_nil k)
  | cons kq t ih =>
      intro hmem
      by_cases h : kq.1 = k
      · simp only [addQty, if_pos h, List.map_cons]
      · simp only [addQty, if_neg h, List.map_cons]
        rw [ih]
        rcases List.mem_cons.mp hmem with he | ht
        · exact absurd he.symm h
        · exact ht

theorem addQty_keys_not_mem (k : String) (q : Int) :
    ∀ (acc : List (String × Int)), k ∉ acc.map Prod.fst →
      (addQty acc k q).map Prod.fst = acc.map Prod.fst ++ [k] := by
  intro acc
  induction acc with
  | nil => intro _; rfl
  | cons kq t ih =>
      intro hmem
      rw [List.map_cons] at hmem
      by_cases h : kq.1 = k
      · exact absurd (h ▸ List.mem_cons_self _ _) hmem
      · simp only [addQty, if_neg h, List.map_cons, List.cons_append]
        rw [ih fun ht => hmem (List.mem_cons_of_mem _ ht)]

theorem addQty_nodup {acc : List (String × Int)} (k : String) (q : Int)
    (hnd : (acc.map Prod.fst).Nodup) :
    ((addQty acc k q).map Prod.fst).Nodup := by
  by_cases h : k ∈ acc.map Prod.fst
  · rw [addQty_keys_mem k q acc h]; exact hnd
  · rw [addQty_keys_not_mem k q acc h]
    simp only [List.nodup_append, List.nodup_cons, List.not_mem_nil,
      not_false_iff, true_and, List.nodup_nil, List.disjoint_singleton]
    exact ⟨hnd, h⟩

/-- The backend's cart construction yields pairwise-distinct keys (it
accumulates into a Python dict). -/
theorem buildCart_nodup (lines : List (String × Int)) :
    ((buildCart lines).map Prod.fst).Nodup := by
  suffices h : ∀ (l : List (String × Int)) (acc : List (String × Int)),
      (acc.map Prod.fst).Nodup → ((l.foldl buildCartStep acc).map Prod.fst).Nodup by
    exact h lines [] List.nodup_nil
  intro l
  induction l with
  | nil => intro acc h; exact h
  | cons kq t ih =>
      intro acc h
      rw [List.foldl_cons]
      apply ih
      simp only [buildCartStep]
      split
      · exact addQty_nodup _ _ h
      · exact h

theorem decrementOne_other {c : Catalog} {kq : String × Int} {k2 : String}
    (h : k2 ≠ kq.1) : decrementOne c kq k2 = c k2 := by
  unfold decrementOne
  cases hc : c kq.1 with
  | none => rfl
  | some p =>
      dsimp only
      unfold updateCat
      rw [if_neg h]

/-- Decrementing each cart line once, with distinct keys and verified
sufficiency, keeps every stock non-negative. -/
theorem catOk_applyDecrements :
    ∀ (cart : List (String × Int)) (cat : Catalog),
      (cart.map Prod.fst).Nodup →
      (∀ kq ∈ cart, ∀ p, cat kq.1 = some p → kq.2 ≤ p.unidades) →
      CatOk cat → CatOk (applyDecrements cat cart) := by
  intro cart
  induction cart with
  | nil => intro cat _ _ h; exact h
  | cons kq t ih =>
      intro cat hnd hsuff h
      rw [List.map_cons, List.nodup_cons] at hnd
      rw [applyDecrements, List.foldl_cons]
      apply ih (decrementOne cat kq) hnd.2
      · intro kq' hkq' p hp
        have hne : kq'.1 ≠ kq.1 := by
          intro he
          exact hnd.1 (he ▸ List.mem_map_of_mem Prod.fst hkq')
        rw [decrementOne_other hne] at hp
        exact hsuff kq' (List.mem_cons_of_mem _ hkq') p hp
      · unfold decrementOne
        split
        · next p hp =>
            apply catOk_update h
            exact sub_nonneg.mpr (hsuff kq (List.mem_cons_self _ _) p hp)
        · exact h

/-- `PosService.checkout` preserves the stock invariant whenever the cart has
pairwise-distinct keys (guaranteed by the Python `dict` it arrives in): every
mutating path first verified `requested <= available` for every line. -/
theorem checkout_stockOk {db : DB} (h : StockOk db)
    (cart0 : List (String × Int)) (hnd : (cart0.map Prod.fst).Nodup)
    (pm : String) (cr : Option Int) (today : String) :
    StockOk (checkout db cart0 pm cr today).2 := by
  simp only [checkout]
  split
  · exact h
  · split
    · exact h
    · split
      · exact h
      · split
        · exact h
        · next hinsuf =>
            have hempty : insufficientOf db.products
                (cart0.filter fun kq => decide (0 < kq.2)) = [] := by
              rcases hl : insufficientOf db.products
                  (cart0.filter fun kq => decide (0 < kq.2)) with _ | ⟨a, l⟩
              · rfl
              · exact absurd (by rw [hl]; simp) hinsuf
            have hnd' : (((cart0.filter fun kq => decide (0 < kq.2)).map
                Prod.fst)).Nodup :=
              hnd.sublist ((List.filter_sublist cart0).map Prod.fst)
            have hsuff : ∀ kq ∈ (cart0.filter fun kq => decide (0 < kq.2)),
                ∀ p, db.products kq.1 = some p → kq.2 ≤ p.unidades := by
              intro kq hkq p hp
              have hf := List.filterMap_eq_nil_iff.mp hempty kq hkq
              rw [hp] at hf
              dsimp only at hf
              split at hf
              · cases hf
              · next hlt => exact le_of_not_lt hlt
            have hdec : CatOk (applyDecrements db.products
                (cart0.filter fun kq => decide (0 < kq.2))) :=
              catOk_applyDecrements _ _ hnd' hsuff h
            split
            · split
              · exact hdec
              · simp only [persistSale]; exact hdec
            · simp only [persistSale]; exact hdec

/-- `WebviewBackend.checkout` preserves the stock invariant. -/
theorem checkoutBackend_stockOk {db : DB} (h : StockOk db)
    (lines : List (String × Int)) (pm : String) (cr : Option Int)
    (today : String) : StockOk (checkoutBackend db lines pm cr today).2 :=
  checkout_stockOk h (buildCart lines) (buildCart_nodup lines) pm cr today

/-- One mutating operation of the C5 claim, with the arguments the backend
endpoints pass down. -/
inductive Op where
  | adjustOp (key : String) (delta : Int) (kind notes : String) (now : Nat)
  | setStockOp (key : String) (stock : Int) (notes : String) (now : Nat)
  | checkoutOp (lines : List (String × Int)) (payment_method : String)
      (cash_received : Option Int) (today : String)

/-- Database effect of one operation (results discarded). -/
def applyOp (db : DB) : Op → DB
  | .adjustOp k d kind notes now => (adjust_stock db k d kind notes now).2
  | .setStockOp k s notes now => (set_stock db k s notes now).2
  | .checkoutOp lines pm cr today => (checkoutBackend db lines pm cr today).2

/-- C5.  Starting from any store in which every product's stock is
non-negative, every sequence of `adjustStock` / `setStock` / `checkout`
operations keeps every product's stock non-negative (instantiating the
sequence at each prefix gives the invariant after every single operation). -/
theorem stock_never_negative (ops : List Op) (db : DB) (h : StockOk db) :
    StockOk (ops.foldl applyOp db) := by
  induction ops generalizing db with
  | nil => exact h
  | cons op t ih =>
      rw [List.foldl_cons]
      apply ih
      cases op with
      | adjustOp k d kind notes now => exact adjust_stock_stockOk h k d kind notes now
      | setStockOp k s notes now => exact set_stock_stockOk h k s notes now
      | checkoutOp lines pm cr today => exact checkoutBackend_stockOk h lines pm cr today

/-- Witness for C5: a concrete store and a concrete operation sequence
(clamped negative adjustment, a checkout, an absolute set). -/
theorem stock_never_negative_witness :
    StockOk dbC1 ∧
    StockOk ([Op.adjustOp "p" (-10) "adjust" "" 1,
        Op.checkoutOp [("p", 2)] "cash" none "2024-01-01",
        Op.setStockOp "p" 3 "" 2].foldl applyOp dbC1) :=
  have h0 : StockOk dbC1 := by
    intro k r hr
    by_cases hk : k = "p"
    · subst hk
      rw [show dbC1.products "p"
          = some ⟨"P", "", 5, 1000, "old", 0⟩ from by decide] at hr
      cases hr
      decide
    · simp only [dbC1, if_neg hk] at hr
      cases hr
  ⟨h0, stock_never_negative _ dbC1 h0⟩

/- ## C6 and C10: upsert idempotence and the returned count -/

theorem dedupStep_keys_of_any {acc : List ProductoImportado}
    {p : ProductoImportado} (hany : acc.any (fun q => q.key == p.key) = true) :
    (dedupStep acc p).map (·.key) = acc.map (·.key) := by
  unfold dedupStep
  rw [if_pos hany, List.map_map]
  apply List.map_congr_left
  intro q _
  dsimp only [Function.comp]
  split
  · next he => rw [he]
  · rfl

theorem dedupStep_keys_of_not {acc : List ProductoImportado}
    {p : ProductoImportado} (hany : acc.any (fun q => q.key == p.key) = false) :
    (dedupStep acc p).map (·.key) = acc.map (·.key) ++ [p.key] := by
  unfold dedupStep
  rw [hany]
  simp

theorem any_key_eq_false_not_mem {acc : List ProductoImportado}
    {p : ProductoImportado} (hany : acc.any (fun q => q.key == p.key) = false) :
    p.key ∉ acc.map (·.key) := by
  intro hmem
  obtain ⟨q, hq, he⟩ := List.mem_map.mp hmem
  have := List.any_eq_false.mp hany q hq
  simp [he] at this

theorem dedup_nodup_aux :
    ∀ (ps acc : List ProductoImportado), ((acc.map (·.key)).Nodup) →
      (((ps.foldl dedupStep acc).map (·.key)).Nodup) := by
  intro ps
  induction ps with
  | nil => intro acc h; exact h
  | cons p t ih =>
      intro acc h
      rw [List.foldl_cons]
      apply ih
      cases hany : acc.any (fun q => q.key == p.key) with
      | true => rw [dedupStep_keys_of_any hany]; exact h
      | false =>
          rw [dedupStep_keys_of_not hany]
          simp only [List.nodup_append, List.nodup_cons, List.not_mem_nil,
            not_false_iff, true_and, List.nodup_nil, List.disjoint_singleton]
          exact ⟨h, any_key_eq_false_not_mem hany⟩

/-- The de-duplicated import list has pairwise-distinct keys. -/
theorem dedupByKey_nodup (ps : List ProductoImportado) :
    ((dedupByKey ps).map (·.key)).Nodup :=
  dedup_nodup_aux ps [] List.nodup_nil

theorem foldl_upsertOne_frame (now : Nat) :
    ∀ (l : List ProductoImportado) (c : Catalog) (k : String),
      k ∉ l.map (·.key) → l.foldl (upsertOne now) c k = c k := by
  intro l
  induction l with
  | nil => intro c k _; rfl
  | cons p t ih =>
      intro c k hk
      rw [List.map_cons] at hk
      rw [List.foldl_cons, ih _ k fun h => hk (List.mem_cons_of_mem _ h)]
      unfold upsertOne updateCat
      rw [if_neg fun h => hk (by rw [h]; exact List.mem_cons_self _ _)]

theorem foldl_upsertOne_lookup (now : Nat) :
    ∀ (l : List ProductoImportado) (c : Catalog) (p : ProductoImportado),
      ((l.map (·.key)).Nodup) → p ∈ l →
      l.foldl (upsertOne now) c p.key = some (upsertRow now (c p.key) p) := by
  intro l
  induction l with
  | nil => intro c p _ hp; exact absurd hp (List.not_mem_nil p)
  | cons q t ih =>
      intro c p hnd hp
      rw [List.map_cons, List.nodup_cons] at hnd
      rw [List.foldl_cons]
      rcases List.mem_cons.mp hp with rfl | hpt
      · rw [foldl_upsertOne_frame now t _ p.key hnd.1]
        unfold upsertOne updateCat
        rw [if_pos rfl]
      · have hne : q.key ≠ p.key := fun he =>
          hnd.1 (he ▸ List.mem_map_of_mem _ hpt)
        rw [ih (upsertOne now c q) p hnd.2 hpt]
        have hother : upsertOne now c q p.key = c p.key := by
          unfold upsertOne updateCat
          rw [if_neg fun h => hne h.symm]
        rw [hother]

/-- The stored category of a key before an upsert, as the upsert preserves
it: the existing value for an existing row, `""` for a fresh insert. -/
def categoryOf : Option ProductRow → String
  | none => ""
  | some r => r.category

/-- C6.  Running the same import list through `upsert_many` twice leaves the
catalog exactly as one run leaves it on every business column (everything
except the `updated_at` timestamp), and one run stores, for each distinct key
(last occurrence wins), that occurrence's name/description/stock/price while
the category comes from the pre-existing row (empty for a fresh insert) —
the category column is modified by neither call. -/
theorem upsert_many_idempotent (cat : Catalog) (ps : List ProductoImportado)
    (now1 now2 : Nat) :
    (∀ k, ((upsert_many (upsert_many cat ps now1).1 ps now2).1 k).map ProductRow.core
        = ((upsert_many cat ps now1).1 k).map ProductRow.core) ∧
    (∀ p ∈ dedupByKey ps,
        ((upsert_many cat ps now1).1 p.key).map ProductRow.core
          = some ⟨p.producto, p.descripcion, p.unidades, p.precio_final,
              categoryOf (cat p.key)⟩) := by
  cases hps : ps.isEmpty with
  | true =>
      have : ps = [] := by simpa using hps
      subst this
      exact ⟨fun k => rfl, fun p hp => absurd hp (List.not_mem_nil p)⟩
  | false =>
      simp only [upsert_many, hps, Bool.false_eq_true, if_false]
      constructor
      · intro k
        by_cases hk : k ∈ (dedupByKey ps).map (·.key)
        · obtain ⟨p, hp, hpk⟩ := List.mem_map.mp hk
          subst hpk
          rw [foldl_upsertOne_lookup now2 _ _ p (dedupByKey_nodup ps) hp,
            foldl_upsertOne_lookup now1 _ _ p (dedupByKey_nodup ps) hp]
          cases hc : cat p.key <;> simp [upsertRow, ProductRow.core]
        · rw [foldl_upsertOne_frame now2 _ _ k hk]
      · intro p hp
        rw [foldl_upsertOne_lookup now1 _ _ p (dedupByKey_nodup ps) hp]
        cases hc : cat p.key <;> simp [upsertRow, ProductRow.core, categoryOf]

/-- Import list for the C6 witness: key `"p"` occurs twice (last occurrence
wins) and `"q"` is new. -/
def psC6 : List ProductoImportado :=
  [⟨"p", "New", "d", 7, 1500⟩, ⟨"q", "Q", "", 2, 300⟩, ⟨"p", "New2", "d2", 8, 1600⟩]

/-- Witness for C6 on a concrete catalog: the second run changes nothing,
and the first run stored the last occurrence's fields with the pre-existing
category `"old"` untouched. -/
theorem upsert_many_idempotent_witness :
    ((⟨"p", "New2", "d2", 8, 1600⟩ : ProductoImportado) ∈ dedupByKey psC6) ∧
    ((upsert_many (upsert_many dbC1.products psC6 1).1 psC6 2).1 "p").map ProductRow.core
        = ((upsert_many dbC1.products psC6 1).1 "p").map ProductRow.core ∧
    ((upsert_many dbC1.products psC6 1).1 "p").map ProductRow.core
        = some ⟨"New2", "d2", 8, 1600, "old"⟩ :=
  have hmem : (⟨"p", "New2", "d2", 8, 1600⟩ : ProductoImportado) ∈ dedupByKey psC6 := by
    decide
  ⟨hmem, (upsert_many_idempotent dbC1.products psC6 1 2).1 "p",
    (upsert_many_idempotent dbC1.products psC6 1 2).2 _ hmem⟩

theorem dedup_keys_mem_aux :
    ∀ (ps acc : List ProductoImportado) (k : String),
      k ∈ (ps.foldl dedupStep acc).map (·.key)
        ↔ (k ∈ acc.map (·.key) ∨ k ∈ ps.map (·.key)) := by
  intro ps
  induction ps with
  | nil => intro acc k; simp
  | cons p t ih =>
      intro acc k
      rw [List.foldl_cons, ih]
      cases hany : acc.any (fun q => q.key == p.key) with
      | true =>
          rw [dedupStep_keys_of_any hany]
          have hpk : p.key ∈ acc.map (·.key) := by
            obtain ⟨q, hq, he⟩ := List.any_eq_true.mp hany
            have : q.key = p.key := by simpa using he
            exact this ▸ List.mem_map_of_mem _ hq
          simp only [List.map_cons, List.mem_cons]
          constructor
          · rintro (h | h)
            · exact Or.inl h
            · exact Or.inr (Or.inr h)
          · rintro (h | h | h)
            · exact Or.inl h
            · exact Or.inl (h ▸ hpk)
            · exact Or.inr h
      | false =>
          rw [dedupStep_keys_of_not hany]
          simp only [List.mem_append, List.map_cons, List.mem_cons,
            List.mem_singleton, List.not_mem_nil, or_false]
          constructor
          · rintro ((h | h) | h)
            · exact Or.inl h
            · exact Or.inr (Or.inl h)
            · exact Or.inr (Or.inr h)
          · rintro (h | h | h)
            · exact Or.inl (Or.inl h)
            · exact Or.inl (Or.inr h)
            · exact Or.inr h

/-- C10.  `upsert_many` returns the number of distinct keys in the input
(last-occurrence de-duplication), independently of the catalog it is applied
to — in particular of how many records were inserts versus updates — and 0
for the empty input. -/
theorem upsert_many_count (cat : Catalog) (ps : List ProductoImportado)
    (now : Nat) :
    (upsert_many cat ps now).2 = (ps.map (·.key)).toFinset.card := by
  cases hps : ps.isEmpty with
  | true =>
      have : ps = [] := by simpa using hps
      subst this
      rfl
  | false =>
      simp only [upsert_many, hps, Bool.false_eq_true, if_false]
      have h1 : (dedupByKey ps).length = ((dedupByKey ps).map (·.key)).length :=
        (List.length_map _ _).symm
      rw [h1, ← List.toFinset_card_of_nodup (dedupByKey_nodup ps)]
      congr 1
      ext k
      simp only [List.mem_toFinset]
      have := dedup_keys_mem_aux ps [] k
      simpa using this
